import Mathlib

/-!
# Verification of the htmoxide state-resolution and URL-synthesis core

Shallow embedding of the state loader (`htmoxide/src/state_loader.rs`),
the URL builder (`htmoxide/src/url_builder.rs`), the bookmark-redirect
middleware (`htmoxide/src/state_urls_middleware.rs`) and the
cookie-hydration / cookie-persistence blocks generated by the `component`
attribute (`htmoxide-macros/src/lib.rs`), together with proofs about them.

Scalar JSON values are modelled by `JValue`; maps (`HashMap`, cookie jars,
`serde_json` objects) are modelled as association lists with the lookup
and insertion semantics of the originals.
-/

/-- Scalar `serde_json::Value`s as produced by the state loader.
`jint` is the `Number` integer case (`i64`), `jfloat` the `Number`
float case (`f64`, represented by its exact rational value). Two
numbers of different variants are not equal, mirroring
`serde_json::Number`'s variant-wise equality. -/
inductive JValue where
  | jint (n : Int)
  | jfloat (q : Rat)
  | jbool (b : Bool)
  | jstr (s : String)
  deriving DecidableEq, Repr

/-- `pub const UNSET_SENTINEL: &str = "__HTMOXIDE_UNSET__"` (state_loader.rs:6). -/
def UNSET_SENTINEL : String := "__HTMOXIDE_UNSET__"

/-! ## Rust scalar parsing (`str::parse::<i64>`, `::<f64>`, `::<bool>`) -/

/-- Digit-string value: `some` of the decimal value when the character list
is nonempty and all decimal digits, as in Rust's integer `from_str`. -/
def digitsVal : List Char → Option Nat
  | [] => none
  | cs =>
    if cs.all (fun c => c.isDigit) then
      some (cs.foldl (fun a c => a * 10 + (c.toNat - 48)) 0)
    else none

/-- Split an optional leading `+`/`-` sign. -/
def splitSign : List Char → Bool × List Char
  | '+' :: r => (false, r)
  | '-' :: r => (true, r)
  | r => (false, r)

/-- `value.parse::<i64>()`: optional sign, one or more digits, value in
`[-2^63, 2^63 - 1]`. -/
def parseI64 (s : String) : Option Int :=
  let (neg, rest) := splitSign s.data
  match digitsVal rest with
  | none => none
  | some n =>
    if neg then
      if n ≤ 2 ^ 63 then some (-(n : Int)) else none
    else
      if n < 2 ^ 63 then some (n : Int) else none

/-- `value.parse::<bool>()`: exactly `"true"` or `"false"`. -/
def parseBool (s : String) : Option Bool :=
  if s = "true" then some true else if s = "false" then some false else none

/-- Result of `value.parse::<f64>()`: a finite double (exact decimal value
kept as a rational), an infinity, or a NaN. -/
inductive F64 where
  | finite (q : Rat)
  | infinite
  | nan
  deriving DecidableEq, Repr

/-- Split a character list at the first `e`/`E` (exponent marker). -/
def splitExpMark : List Char → List Char × Option (List Char)
  | [] => ([], none)
  | c :: r =>
    if c = 'e' ∨ c = 'E' then ([], some r)
    else
      let (m, ex) := splitExpMark r
      (c :: m, ex)

/-- Split a character list on a separator character (the semantics of
Rust's `str::split`): `n` separators yield `n + 1` groups. -/
def splitListOn (sep : Char) : List Char → List (List Char)
  | [] => [[]]
  | c :: rest =>
    let r := splitListOn sep rest
    if c = sep then [] :: r
    else
      match r with
      | [] => [[c]]
      | g :: gs => (c :: g) :: gs

/-- String-level wrapper of `splitListOn`. -/
def strSplitOn (s : String) (sep : Char) : List String :=
  (splitListOn sep s.data).map (fun cs => ⟨cs⟩)

/-- Mantissa grammar `Digit+ | Digit+ '.' Digit* | Digit* '.' Digit+`:
returns the digit value together with the number of fractional digits. -/
def parseMantissa (cs : List Char) : Option (Nat × Nat) :=
  match splitListOn '.' cs with
  | [ds] =>
    match digitsVal ds with
    | some n => some (n, 0)
    | none => none
  | [intPart, fracPart] =>
    if (intPart ++ fracPart).length = 0 then none
    else if (intPart ++ fracPart).all (fun c => c.isDigit) then
      some ((intPart ++ fracPart).foldl (fun a c => a * 10 + (c.toNat - 48)) 0,
        fracPart.length)
    else none
  | _ => none

/-- Exponent part after `e`/`E`: optional sign then one or more digits. -/
def parseExpPart (cs : List Char) : Option Int :=
  let (neg, rest) := splitSign cs
  match digitsVal rest with
  | none => none
  | some n => some (if neg then -(n : Int) else (n : Int))

/-- Scale a rational by a signed power of ten. -/
def scalePow10 (q : Rat) (e : Int) : Rat :=
  match e with
  | Int.ofNat n => q * (10 : Rat) ^ n
  | Int.negSucc n => q / (10 : Rat) ^ (n + 1)

/-- All finite `f64`s are below this bound; a decimal of absolute value
`≥ 2^1024 - 2^970` rounds to infinity under round-to-nearest-even. -/
def f64Bound : Rat := (2 : Rat) ^ 1024 - (2 : Rat) ^ 970

/-- ASCII lower-casing of a string (Rust's `inf`/`nan` keyword matching is
ASCII-case-insensitive). -/
def lowerStr (s : String) : String := ⟨s.data.map Char.toLower⟩

/-- `value.parse::<f64>()` per the documented grammar:
`Sign? ('inf' | 'infinity' | 'nan' | Number)` with
`Number ::= (Digit+ | Digit+ '.' Digit* | Digit* '.' Digit+) Exp?`.
Finite decimals beyond the largest double overflow to infinity. -/
def parseRustF64 (s : String) : Option F64 :=
  let (neg, rest) := splitSign s.data
  let low := lowerStr ⟨rest⟩
  if low = "inf" ∨ low = "infinity" then some .infinite
  else if low = "nan" then some .nan
  else
    let (mant, expPart) := splitExpMark rest
    let exp : Option Int :=
      match expPart with
      | none => some 0
      | some ecs => parseExpPart ecs
    match parseMantissa mant, exp with
    | some (n, frac), some e =>
      let q := scalePow10 ((n : Rat) / (10 : Rat) ^ frac) e
      let q := if neg then -q else q
      if f64Bound ≤ |q| then some .infinite else some (.finite q)
    | _, _ => none

/-- `StateLoader::parse_value` (state_loader.rs:84-96): try `i64`, then
`f64` (where `serde_json::Number::from_f64` rejects non-finite values),
then `bool`, else keep the string. -/
def parse_value (v : String) : Option JValue :=
  match parseI64 v with
  | some n => some (.jint n)
  | none =>
    match parseRustF64 v with
    | some (.finite q) => some (.jfloat q)
    | some _ => none
    | none =>
      match parseBool v with
      | some b => some (.jbool b)
      | none => some (.jstr v)

/-! ## Association-list maps (model of `HashMap` / cookie jars / JSON objects) -/

/-- First-match lookup, the behaviour of `HashMap::get` / `Cookies::get`. -/
def lookupA {α : Type} : List (String × α) → String → Option α
  | [], _ => none
  | p :: m, k => if p.1 = k then some p.2 else lookupA m k

/-- `HashMap::insert`: replace the value at an existing key (keeping its
position), else append the new entry. -/
def insertA {α : Type} : List (String × α) → String × α → List (String × α)
  | [], p => [p]
  | q :: m, p => if q.1 = p.1 then p :: m else q :: insertA m p

theorem lookupA_insertA_self {α : Type} (m : List (String × α)) (p : String × α) :
    lookupA (insertA m p) p.1 = some p.2 := by
  induction m with
  | nil => simp [insertA, lookupA]
  | cons q m ih =>
    by_cases h : q.1 = p.1
    · simp [insertA, h, lookupA]
    · simp [insertA, h, lookupA, ih]

theorem lookupA_insertA_other {α : Type} (m : List (String × α)) (p : String × α)
    (k : String) (h : p.1 ≠ k) : lookupA (insertA m p) k = lookupA m k := by
  induction m with
  | nil => simp [insertA, lookupA, h]
  | cons q m ih =>
    by_cases hq : q.1 = p.1
    · simp [insertA, hq, lookupA, h, hq ▸ h]
    · simp [insertA, hq, lookupA, ih]

/-- The value of the last entry of `ps` whose key is `k` — the "last
occurrence wins" reading of the spec. -/
def lastVal {α : Type} (ps : List (String × α)) (k : String) : Option α :=
  ps.foldl (fun acc p => if p.1 = k then some p.2 else acc) none

theorem foldl_lastAcc {α : Type} (ps : List (String × α)) (k : String)
    (a : Option α) :
    ps.foldl (fun acc p => if p.1 = k then some p.2 else acc) a =
      match lastVal ps k with
      | some v => some v
      | none => a := by
  induction ps generalizing a with
  | nil => simp [lastVal]
  | cons p rest ih =>
    show List.foldl _ (if p.1 = k then some p.2 else a) rest = _
    rw [ih]
    have hrest := ih (a := if p.1 = k then some p.2 else none)
    show _ = match lastVal (p :: rest) k with | some v => some v | none => a
    have : lastVal (p :: rest) k =
        List.foldl (fun acc q => if q.1 = k then some q.2 else acc)
          (if p.1 = k then some p.2 else none) rest := rfl
    rw [this, hrest]
    cases h : lastVal rest k with
    | some v => simp
    | none => by_cases hp : p.1 = k <;> simp [hp]

/-- Folding `insertA` over a pair list: the last occurrence of a key wins,
and absent keys fall through to the original map. -/
theorem lookupA_foldl_insertA {α : Type} (ps : List (String × α))
    (m : List (String × α)) (k : String) :
    lookupA (ps.foldl insertA m) k =
      match lastVal ps k with
      | some v => some v
      | none => lookupA m k := by
  induction ps generalizing m with
  | nil => simp [lastVal]
  | cons p rest ih =>
    show lookupA (rest.foldl insertA (insertA m p)) k = _
    rw [ih]
    have hlast : lastVal (p :: rest) k =
        match lastVal rest k with
        | some v => some v
        | none => if p.1 = k then some p.2 else none := by
      show List.foldl _ (if p.1 = k then some p.2 else none) rest = _
      rw [foldl_lastAcc]
    rw [hlast]
    cases h : lastVal rest k with
    | some v => simp
    | none =>
      by_cases hp : p.1 = k
      · subst hp
        simp [lookupA_insertA_self]
      · simp [hp, lookupA_insertA_other m p k hp]

/-! ## Stringification (the macro's cookie-persistence block, lib.rs:325-335) -/

/-- Remove as many factors `p` as possible (fuelled); returns the count
and the remaining cofactor. -/
def stripFac (p : Nat) : Nat → Nat → Nat × Nat
  | 0, n => (0, n)
  | fuel + 1, n =>
    if 1 < p ∧ 0 < n ∧ n % p = 0 then
      let r := stripFac p fuel (n / p)
      (r.1 + 1, r.2)
    else (0, n)

/-- Decimal digits of `m`, left-padded with zeros to length `len`. -/
def natDigitsPad (m len : Nat) : String :=
  let s := toString m
  ⟨List.replicate (len - s.length) '0' ++ s.data⟩

/-- Rust's `f64` `Display` on the exact decimal rationals that arise from
parsing: integers print without a decimal point, other powers-of-ten
denominators print as plain decimals (never scientific notation). -/
def floatToString (q : Rat) : String :=
  if q.den = 1 then toString q.num
  else
    let s2 := stripFac 2 q.den q.den
    let s5 := stripFac 5 s2.2 s2.2
    if s5.2 = 1 then
      let k := max s2.1 s5.1
      let m := q.num.natAbs * 10 ^ k / q.den
      let ds := natDigitsPad m (k + 1)
      let ip : String := ⟨ds.data.take (ds.data.length - k)⟩
      let fp : String := ⟨ds.data.drop (ds.data.length - k)⟩
      (if q.num < 0 then "-" else "") ++ ip ++ "." ++ fp
    else toString q

/-- The macro's per-field cookie stringification (lib.rs:325-335):
`as_str`, else `as_i64`, else `as_f64`, else `as_bool`, each rendered
with `to_string`. -/
def stringifyValue : JValue → String
  | .jstr s => s
  | .jint n => toString n
  | .jfloat q => floatToString q
  | .jbool b => cond b "true" "false"

/-! ## State schema and `StateLoader::load` (state_loader.rs:34-81) -/

/-- Scalar field types of a state struct. -/
inductive SType where
  | sInt
  | sFloat
  | sBool
  | sStr
  deriving DecidableEq, Repr

/-- One field of a state type `T`: its name, scalar type, and the value it
takes in `T::default()` (as serialized by `serde_json::to_value`). -/
structure SField where
  name : String
  ty : SType
  dflt : JValue
  deriving DecidableEq, Repr

/-- A state type `T` as its serialized field list (`default_obj`). -/
abbrev Schema := List SField

/-- The merged scalar value of one field (the body of the loop at
state_loader.rs:47-69): start from the default, overwrite with the parsed
cookie when it parses, then overwrite with the query value — the unset
sentinel forcing the empty string, other values overwriting when they
parse. -/
def mergedValue (jar q : List (String × String)) (f : String) (d : JValue) : JValue :=
  let afterCookie :=
    match lookupA jar f with
    | some cv =>
      match parse_value cv with
      | some p => p
      | none => d
    | none => d
  match lookupA q f with
  | some qv =>
    if qv = UNSET_SENTINEL then .jstr ""
    else
      match parse_value qv with
      | some p => p
      | none => afterCookie
  | none => afterCookie

/-- The merged raw scalar map (`state_obj` after the loop). -/
def mergedMap (sch : Schema) (jar q : List (String × String)) : List (String × JValue) :=
  sch.map (fun e => (e.name, mergedValue jar q e.name e.dflt))

/-- Whether `serde_json::from_value` accepts a scalar for a field of the
given type: `i64` fields take integer numbers, `f64` fields take any
number, `bool` fields booleans, `String` fields strings. -/
def typeMatches : SType → JValue → Bool
  | .sInt, .jint _ => true
  | .sFloat, .jint _ => true
  | .sFloat, .jfloat _ => true
  | .sBool, .jbool _ => true
  | .sStr, .jstr _ => true
  | _, _ => false

/-- The value a field holds after deserialization: an integer number fed
to an `f64` field becomes that float, everything else is unchanged. -/
def coerceField : SType → JValue → JValue
  | .sFloat, .jint n => .jfloat (n : Rat)
  | _, v => v

/-- `serde_json::from_value::<T>(state_json).is_ok()`: every field's merged
value matches its declared scalar type. -/
def allTypesOk (sch : Schema) (jar q : List (String × String)) : Bool :=
  sch.all (fun e => typeMatches e.ty (mergedValue jar q e.name e.dflt))

/-- `T::default()` as a field map. -/
def defaultState (sch : Schema) : List (String × JValue) :=
  sch.map (fun e => (e.name, e.dflt))

/-- `StateLoader::load::<T>()` (state_loader.rs:34-81): the merged map
deserialized back into `T` when that succeeds, `T::default()` wholesale
otherwise. The result is the state as a field map. -/
def loadState (sch : Schema) (jar q : List (String × String)) : List (String × JValue) :=
  if allTypesOk sch jar q then
    sch.map (fun e => (e.name, coerceField e.ty (mergedValue jar q e.name e.dflt)))
  else defaultState sch

/-! ## Cookie persistence (macro-generated save block, lib.rs:321-347) -/

/-- `cookies.add(Cookie::new(k, v))` with path `/`: the jar afterwards. -/
def cookieSet (jar : List (String × String)) (k v : String) : List (String × String) :=
  jar.filter (fun c => !(c.1 == k)) ++ [(k, v)]

/-- `cookies.remove(Cookie::from(k))`: the jar afterwards. -/
def cookieRemove (jar : List (String × String)) (k : String) : List (String × String) :=
  jar.filter (fun c => !(c.1 == k))

/-- The persistence loop (lib.rs:324-345): one cookie per field of the
resolved map; an empty stringified value deletes the cookie, a non-empty
one sets it. -/
def persistCookies (m : List (String × JValue)) (jar : List (String × String)) :
    List (String × String) :=
  m.foldl
    (fun jar p =>
      if stringifyValue p.2 = "" then cookieRemove jar p.1
      else cookieSet jar p.1 (stringifyValue p.2))
    jar

/-! ## Cookie hydration (macro-generated block, lib.rs:283-319) -/

/-- The macro's inline cookie-value parser (lib.rs:296-307): like
`parse_value` but an empty string yields no value at all. -/
def hydrParse (v : String) : Option JValue :=
  match parseI64 v with
  | some n => some (.jint n)
  | none =>
    match parseRustF64 v with
    | some (.finite q) => some (.jfloat q)
    | some _ => none
    | none =>
      match parseBool v with
      | some b => some (.jbool b)
      | none => if v = "" then none else some (.jstr v)

/-- One iteration of the hydration loop (lib.rs:292-313): only when the
query-resolved value still equals the default is a parseable cookie value
merged in. -/
def hydStep (jar : List (String × String)) (sm : List (String × JValue))
    (e : SField) : List (String × JValue) :=
  match lookupA sm e.name with
  | some cur =>
    if cur = e.dflt then
      match lookupA jar e.name with
      | some cv =>
        match hydrParse cv with
        | some v => insertA sm (e.name, v)
        | none => sm
      | none => sm
    else sm
  | none => sm

/-- The hydration loop (lib.rs:291-314) over all fields of the default
object. -/
def hydrateMap (sch : Schema) (sm : List (String × JValue))
    (jar : List (String × String)) : List (String × JValue) :=
  sch.foldl (hydStep jar) sm

/-! ## URL builder (url_builder.rs) -/

/-- UTF-8 bytes of a character (as naturals). -/
def utf8Bytes (c : Char) : List Nat :=
  let n := c.toNat
  if n < 128 then [n]
  else if n < 2048 then [192 + n / 64, 128 + n % 64]
  else if n < 65536 then [224 + n / 4096, 128 + n / 64 % 64, 128 + n % 64]
  else [240 + n / 262144, 128 + n / 4096 % 64, 128 + n / 64 % 64, 128 + n % 64]

/-- Uppercase hex digit. -/
def hexDigit (n : Nat) : Char :=
  if n < 10 then Char.ofNat (48 + n) else Char.ofNat (55 + n)

/-- Two-digit uppercase hex of a byte. -/
def hex2 (b : Nat) : String := ⟨[hexDigit (b / 16), hexDigit (b % 16)]⟩

/-- `form_urlencoded` byte serialization (used by `serde_urlencoded`):
space becomes `+`, alphanumerics and `*-._` pass through, every other
byte is percent-encoded. -/
def formByte (b : Nat) : String :=
  if b = 32 then "+"
  else if (48 ≤ b ∧ b ≤ 57) ∨ (65 ≤ b ∧ b ≤ 90) ∨ (97 ≤ b ∧ b ≤ 122)
      ∨ b = 42 ∨ b = 45 ∨ b = 46 ∨ b = 95 then
    ⟨[Char.ofNat b]⟩
  else "%" ++ hex2 b

/-- Form-url-encode a string. -/
def urlEncode (s : String) : String :=
  String.join (((s.data.map utf8Bytes).flatten).map formByte)

/-- One `key=value` pair, both sides encoded. -/
def encodePair (p : String × String) : String :=
  urlEncode p.1 ++ "=" ++ urlEncode p.2

/-- `serde_urlencoded::to_string` over the entry list: pairs joined
with `&`. -/
def encodeParams : List (String × String) → String
  | [] => ""
  | [p] => encodePair p
  | p :: q :: rest => encodePair p ++ "&" ++ encodeParams (q :: rest)

/-- Join strings with a separator (used to undo an over-eager split so
that only the first `=` of a pair separates key from value). -/
def joinSep (sep : String) : List String → String
  | [] => ""
  | [s] => s
  | s :: t :: rest => s ++ sep ++ joinSep sep (t :: rest)

/-- One query-string pair (url_builder.rs:136-146): skip empty pairs,
split once on `=`, skip empty keys, missing value is `""`. -/
def splitPairOnce (pair : String) : Option (String × String) :=
  if pair = "" then none
  else
    match strSplitOn pair '=' with
    | [] => none
    | k :: rest => if k = "" then none else some (k, joinSep "=" rest)

/-- The pair list produced by splitting on `&` (before `HashMap` collect). -/
def rawPairs (qs : String) : List (String × String) :=
  (strSplitOn qs '&').filterMap splitPairOnce

/-- `parse_query_string` (url_builder.rs:129-149): empty string gives the
empty map; otherwise the raw pairs collected into a map, later
occurrences overwriting earlier ones. -/
def parse_query_string (qs : String) : List (String × String) :=
  if qs = "" then [] else (rawPairs qs).foldl insertA []

/-- `UrlBuilder` (url_builder.rs:5-10). -/
structure UrlBuilder where
  path : String
  all_params : List (String × String)
  main_page_path : Option String
  deriving DecidableEq, Repr

namespace UrlBuilder

/-- `UrlBuilder::new` (url_builder.rs:13-20). -/
def new (path qs : String) : UrlBuilder :=
  ⟨path, parse_query_string qs, none⟩

/-- `UrlBuilder::with_main_page` (url_builder.rs:23-26). -/
def with_main_page (b : UrlBuilder) (p : String) : UrlBuilder :=
  { b with main_page_path := some p }

/-- `UrlBuilder::with_params` (url_builder.rs:29-38). -/
def with_params (b : UrlBuilder) (ps : List (String × String)) : UrlBuilder :=
  { b with all_params := ps.foldl insertA b.all_params }

/-- The filtered entry list of `build` (url_builder.rs:43-46): entries
with an empty key or an empty value are dropped. -/
def filteredParams (b : UrlBuilder) : List (String × String) :=
  b.all_params.filter (fun p => !(p.1 == "") && !(p.2 == ""))

/-- `UrlBuilder::build` (url_builder.rs:41-60). -/
def build (b : UrlBuilder) : String :=
  let fp := filteredParams b
  if fp.isEmpty then b.path
  else
    let qs := encodeParams fp
    if qs = "" then b.path else b.path ++ "?" ++ qs

/-- `UrlBuilder::build_main_url` (url_builder.rs:63-84): identical to
`build` against `main_page_path`, defaulting to `/`. -/
def build_main_url (b : UrlBuilder) : String :=
  let mp := match b.main_page_path with
    | some p => p
    | none => "/"
  let fp := filteredParams b
  if fp.isEmpty then mp
  else
    let qs := encodeParams fp
    if qs = "" then mp else mp ++ "?" ++ qs

end UrlBuilder

/-- Any builder reachable from `new` by a chain of `with_params` calls. -/
def mkBuilder (path qs : String) (pss : List (List (String × String))) : UrlBuilder :=
  pss.foldl UrlBuilder.with_params (UrlBuilder.new path qs)

/-! ## Bookmark-redirect middleware (state_urls_middleware.rs:85-132) -/

/-- The request data the middleware inspects. -/
structure ReqModel where
  path : String
  hxRequest : Bool
  query : Option String
  cookies : List (String × String)
  deriving Repr

/-- The cookie-collection loop (state_urls_middleware.rs:105-120):
denylisted names and empty values are skipped, the rest inserted into the
query-parameter map. -/
def collectParams (denylist : List String) (cookies : List (String × String)) :
    List (String × String) :=
  (cookies.filter (fun c => !(denylist.contains c.1) && !(c.2 == ""))).foldl insertA []

/-- `state_urls_middleware_impl`: `some url` models `Redirect::to(url)`,
`none` models passing the request through to `next.run`. -/
def state_urls_middleware (denylist : List String) (req : ReqModel) : Option String :=
  if req.hxRequest then none
  else if req.query.isSome then none
  else
    let qp := collectParams denylist req.cookies
    if qp.isEmpty then none
    else some (req.path ++ "?" ++ encodeParams qp)

/-! ## Helper lemmas -/

theorem lastVal_cons {α : Type} (p : String × α) (ps : List (String × α)) (k : String) :
    lastVal (p :: ps) k =
      match lastVal ps k with
      | some v => some v
      | none => if p.1 = k then some p.2 else none := by
  show List.foldl _ (if p.1 = k then some p.2 else none) ps = _
  rw [foldl_lastAcc]

theorem lastVal_mem {α : Type} (ps : List (String × α)) (k : String) (v : α)
    (h : lastVal ps k = some v) : ∃ p ∈ ps, p.1 = k ∧ p.2 = v := by
  induction ps with
  | nil => simp [lastVal] at h
  | cons p rest ih =>
    rw [lastVal_cons] at h
    cases hr : lastVal rest k with
    | some w =>
      rw [hr] at h
      obtain ⟨x, hx, hk, hv⟩ := ih (hr.trans (by simpa using h))
      exact ⟨x, List.mem_cons_of_mem _ hx, hk, hv⟩
    | none =>
      rw [hr] at h
      by_cases hp : p.1 = k
      · simp [hp] at h
        exact ⟨p, List.mem_cons_self _ _, hp, h⟩
      · simp [hp] at h

theorem lastVal_isSome_of_mem {α : Type} (ps : List (String × α)) (p : String × α)
    (h : p ∈ ps) : lastVal ps p.1 ≠ none := by
  induction ps with
  | nil => simp at h
  | cons q rest ih =>
    rw [lastVal_cons]
    rcases List.mem_cons.mp h with hq | hm
    · cases hr : lastVal rest p.1 with
      | some w => simp
      | none => subst hq; simp
    · cases hr : lastVal rest p.1 with
      | some w => simp
      | none => exact absurd hr (ih hm)

/-- With distinct field names, the last (indeed only) entry of a
schema-derived map at a field's name carries that field's value. -/
theorem lastVal_map_nodup (sch : Schema) (g : SField → JValue) (e : SField)
    (he : e ∈ sch) (hnd : (sch.map (fun x => x.name)).Nodup) :
    lastVal (sch.map (fun x => (x.name, g x))) e.name = some (g e) := by
  induction sch with
  | nil => simp at he
  | cons x rest ih =>
    have hnd' : (rest.map (fun x => x.name)).Nodup := (List.nodup_cons.mp hnd).2
    have hxr : x.name ∉ rest.map (fun x => x.name) := (List.nodup_cons.mp hnd).1
    rw [List.map_cons, lastVal_cons]
    rcases List.mem_cons.mp he with hx | hm
    · subst hx
      cases hr : lastVal (rest.map (fun x => (x.name, g x))) e.name with
      | some w =>
        obtain ⟨p, hp, hk, hv⟩ := lastVal_mem _ _ _ hr
        obtain ⟨y, hy, hyp⟩ := List.mem_map.mp hp
        exfalso
        apply hxr
        rw [List.mem_map]
        exact ⟨y, hy, by rw [← hyp] at hk; exact hk⟩
      | none => simp
    · rw [ih hm hnd']

/-- Same, for first-match lookup. -/
theorem lookupA_map_nodup (sch : Schema) (g : SField → JValue) (e : SField)
    (he : e ∈ sch) (hnd : (sch.map (fun x => x.name)).Nodup) :
    lookupA (sch.map (fun x => (x.name, g x))) e.name = some (g e) := by
  induction sch with
  | nil => simp at he
  | cons x rest ih =>
    have hnd' : (rest.map (fun x => x.name)).Nodup := (List.nodup_cons.mp hnd).2
    have hxr : x.name ∉ rest.map (fun x => x.name) := (List.nodup_cons.mp hnd).1
    rcases List.mem_cons.mp he with hx | hm
    · subst hx
      simp [lookupA]
    · have hne : x.name ≠ e.name := by
        intro hcontra
        apply hxr
        rw [hcontra, List.mem_map]
        exact ⟨e, hm, rfl⟩
      simpa [lookupA, hne] using ih hm hnd'

theorem all_congr_mem {α : Type} (chk₁ chk₂ : α → Bool) :
    ∀ xs : List α, (∀ x ∈ xs, chk₁ x = chk₂ x) → xs.all chk₁ = xs.all chk₂
  | [], _ => rfl
  | x :: rest, h => by
    simp only [List.all_cons]
    rw [h x (List.mem_cons_self _ _),
      all_congr_mem chk₁ chk₂ rest (fun y hy => h y (List.mem_cons_of_mem _ hy))]

theorem lookupA_append {α : Type} (l₁ l₂ : List (String × α)) (k : String) :
    lookupA (l₁ ++ l₂) k =
      match lookupA l₁ k with
      | some v => some v
      | none => lookupA l₂ k := by
  induction l₁ with
  | nil => simp [lookupA]
  | cons p rest ih =>
    by_cases hp : p.1 = k
    · simp [lookupA, hp]
    · simp [lookupA, hp, ih]

theorem lookupA_filterOut_self {α : Type} (jar : List (String × α)) (k : String) :
    lookupA (jar.filter (fun c => !(c.1 == k))) k = none := by
  induction jar with
  | nil => simp [lookupA]
  | cons c rest ih =>
    by_cases hc : c.1 = k
    · simp [List.filter_cons, hc, ih]
    · simp [List.filter_cons, hc, lookupA, ih]

theorem lookupA_filterOut_other {α : Type} (jar : List (String × α)) (k k' : String)
    (h : k ≠ k') : lookupA (jar.filter (fun c => !(c.1 == k))) k' = lookupA jar k' := by
  induction jar with
  | nil => simp
  | cons c rest ih =>
    by_cases hc : c.1 = k
    · have hck : c.1 ≠ k' := by rw [hc]; exact h
      simp [List.filter_cons, hc, lookupA, hck, h, ih]
    · simp only [List.filter_cons]
      by_cases hck : c.1 = k'
      · have hkk : ¬(k' = k) := fun hh => h hh.symm
        simp [hc, hkk, lookupA, hck]
      · simp [hc, lookupA, hck, ih]

theorem lookupA_cookieSet_self (jar : List (String × String)) (k v : String) :
    lookupA (cookieSet jar k v) k = some v := by
  rw [cookieSet, lookupA_append, lookupA_filterOut_self]
  simp [lookupA]

theorem lookupA_cookieSet_other (jar : List (String × String)) (k v k' : String)
    (h : k ≠ k') : lookupA (cookieSet jar k v) k' = lookupA jar k' := by
  rw [cookieSet, lookupA_append]
  rw [lookupA_filterOut_other jar k k' h]
  cases hl : lookupA jar k' with
  | some w => simp
  | none => simp [lookupA, h]

theorem lookupA_cookieRemove_self (jar : List (String × String)) (k : String) :
    lookupA (cookieRemove jar k) k = none :=
  lookupA_filterOut_self jar k

theorem lookupA_cookieRemove_other (jar : List (String × String)) (k k' : String)
    (h : k ≠ k') : lookupA (cookieRemove jar k) k' = lookupA jar k' :=
  lookupA_filterOut_other jar k k' h

/-- Cookie lookup after the persistence loop: governed by the last entry
of the persisted map with that key; keys outside the map fall through to
the original jar. -/
theorem lookupA_persistCookies (m : List (String × JValue))
    (jar : List (String × String)) (k : String) :
    lookupA (persistCookies m jar) k =
      match lastVal m k with
      | some v => if stringifyValue v = "" then none else some (stringifyValue v)
      | none => lookupA jar k := by
  induction m generalizing jar with
  | nil => simp [persistCookies, lastVal]
  | cons p rest ih =>
    show lookupA (persistCookies rest _) k = _
    rw [ih, lastVal_cons]
    cases hr : lastVal rest k with
    | some v => simp
    | none =>
      by_cases hp : p.1 = k
      · subst hp
        by_cases hz : stringifyValue p.2 = ""
        · simp [hz, lookupA_cookieRemove_self]
        · simp [hz, lookupA_cookieSet_self]
      · by_cases hz : stringifyValue p.2 = ""
        · simp [hz, hp, lookupA_cookieRemove_other jar p.1 k hp]
        · simp [hz, hp, lookupA_cookieSet_other jar p.1 _ k hp]

/-! ### `mergedValue` case lemmas -/

theorem mergedValue_query (jar q : List (String × String)) (f : String) (d : JValue)
    (qv : String) (p : JValue) (hq : lookupA q f = some qv)
    (hs : qv ≠ UNSET_SENTINEL) (hp : parse_value qv = some p) :
    mergedValue jar q f d = p := by
  simp [mergedValue, hq, hs, hp]

theorem mergedValue_sentinel (jar q : List (String × String)) (f : String) (d : JValue)
    (hq : lookupA q f = some UNSET_SENTINEL) :
    mergedValue jar q f d = .jstr "" := by
  simp [mergedValue, hq]

theorem mergedValue_cookie (jar q : List (String × String)) (f : String) (d : JValue)
    (cv : String) (p : JValue) (hq : lookupA q f = none)
    (hc : lookupA jar f = some cv) (hp : parse_value cv = some p) :
    mergedValue jar q f d = p := by
  simp [mergedValue, hq, hc, hp]

theorem mergedValue_default (jar q : List (String × String)) (f : String) (d : JValue)
    (hq : lookupA q f = none) (hc : lookupA jar f = none) :
    mergedValue jar q f d = d := by
  simp [mergedValue, hq, hc]

/-! ### URL-builder helper lemmas -/

theorem insertA_ne_nil {α : Type} (m : List (String × α)) (p : String × α) :
    insertA m p ≠ [] := by
  cases m with
  | nil => simp [insertA]
  | cons q m => by_cases h : q.1 = p.1 <;> simp [insertA, h]

theorem foldl_insertA_ne_nil {α : Type} (ps : List (String × α))
    (m : List (String × α)) (h : m ≠ []) : ps.foldl insertA m ≠ [] := by
  induction ps generalizing m with
  | nil => exact h
  | cons p rest ih => exact ih (insertA m p) (insertA_ne_nil m p)

theorem foldl_with_params_path (pss : List (List (String × String))) (b : UrlBuilder) :
    (pss.foldl UrlBuilder.with_params b).path = b.path := by
  induction pss generalizing b with
  | nil => rfl
  | cons ps rest ih => exact (ih _).trans rfl

theorem foldl_with_params_main (pss : List (List (String × String))) (b : UrlBuilder) :
    (pss.foldl UrlBuilder.with_params b).main_page_path = b.main_page_path := by
  induction pss generalizing b with
  | nil => rfl
  | cons ps rest ih => exact (ih _).trans rfl

theorem mkBuilder_path (path qs : String) (pss : List (List (String × String))) :
    (mkBuilder path qs pss).path = path :=
  foldl_with_params_path pss (UrlBuilder.new path qs)

theorem mkBuilder_main (path qs : String) (pss : List (List (String × String))) :
    (mkBuilder path qs pss).main_page_path = none :=
  foldl_with_params_main pss (UrlBuilder.new path qs)

theorem encodeParams_cons_ne_empty (p : String × String) (rest : List (String × String)) :
    encodeParams (p :: rest) ≠ "" := by
  have hlen : 0 < (encodeParams (p :: rest)).length := by
    have heq : ("=" : String).length = 1 := rfl
    have ham : ("&" : String).length = 1 := rfl
    cases rest with
    | nil =>
      simp [encodeParams, encodePair, String.length_append, heq]
    | cons q r =>
      simp [encodeParams, encodePair, String.length_append, heq, ham]
  intro h
  rw [h] at hlen
  simp at hlen

/-- C4 relies on membership in the filtered list implying non-emptiness. -/
theorem mem_filteredParams (b : UrlBuilder) (p : String × String)
    (hp : p ∈ b.filteredParams) : p.1 ≠ "" ∧ p.2 ≠ "" := by
  have := (List.mem_filter.mp hp).2
  simp only [Bool.and_eq_true, Bool.not_eq_true', beq_eq_false_iff_ne] at this
  exact this

/-! ## Claim C4 — `build()` filters empty keys and empty values -/

/-- C4: for every `UrlBuilder` (any base path, initial query string and
sequence of `withParams` calls), every entry surviving the `build` filter
has a non-empty key and a non-empty value; when no entry survives,
`build()` is the base path unmodified; otherwise it is the base path, a
`?`, and the serialization of exactly the surviving entries; and
`new("/x","count=0").withParams([("count","")]).build() == "/x"`. -/
theorem c4_build_filters_empty (path qs : String)
    (pss : List (List (String × String))) :
    (∀ p ∈ (mkBuilder path qs pss).filteredParams, p.1 ≠ "" ∧ p.2 ≠ "")
    ∧ ((mkBuilder path qs pss).filteredParams = [] →
        (mkBuilder path qs pss).build = path)
    ∧ ((mkBuilder path qs pss).filteredParams ≠ [] →
        (mkBuilder path qs pss).build =
          path ++ "?" ++ encodeParams (mkBuilder path qs pss).filteredParams)
    ∧ (UrlBuilder.with_params (UrlBuilder.new "/x" "count=0")
        [("count", "")]).build = "/x" := by
  refine ⟨fun p hp => mem_filteredParams _ p hp, ?_, ?_, by decide⟩
  · intro h
    rw [UrlBuilder.build, h]
    exact mkBuilder_path path qs pss
  · intro h
    obtain ⟨p, rest, hfp⟩ := List.exists_cons_of_ne_nil h
    rw [UrlBuilder.build, hfp]
    have hne := encodeParams_cons_ne_empty p rest
    simp only [List.isEmpty_cons, if_false, Bool.false_eq_true, hne, ite_false]
    rw [mkBuilder_path path qs pss]

/-- C4 witness: the filter applied at a concrete input. -/
theorem c4_build_filters_empty_witness :
    (mkBuilder "/x" "count=0" [[("count", "")]]).build = "/x" :=
  (c4_build_filters_empty "/x" "count=0" [[("count", "")]]).2.1 (by decide)

/-! ## Claim C8 — duplicate keys: last occurrence wins; `withParams` overrides -/

/-- C8: parsing an initial query string stores, for each key, the value
of its last occurrence among the split pairs; a `with_params` entry for a
key always replaces the earlier value for that key (with its own last
entry winning); and
`new("/x","a=1&b=2").withParams([("b","3")]).allParams() == {a:"1", b:"3"}`. -/
theorem c8_merge_last_wins (qs : String) (b : UrlBuilder)
    (ps : List (String × String)) (k : String) :
    lookupA (parse_query_string qs) k = lastVal (rawPairs qs) k
    ∧ lookupA (UrlBuilder.with_params b ps).all_params k =
        (match lastVal ps k with
         | some v => some v
         | none => lookupA b.all_params k)
    ∧ lookupA (UrlBuilder.with_params (UrlBuilder.new "/x" "a=1&b=2")
        [("b", "3")]).all_params k = lookupA [("a", "1"), ("b", "3")] k := by
  refine ⟨?_, ?_, ?_⟩
  · by_cases hq : qs = ""
    · have hra : rawPairs "" = [] := rfl
      subst hq
      simp [parse_query_string, hra, lastVal, lookupA]
    · rw [parse_query_string, if_neg hq, lookupA_foldl_insertA]
      cases h : lastVal (rawPairs qs) k <;> simp [lookupA]
  · simp only [UrlBuilder.with_params]
    rw [lookupA_foldl_insertA ps b.all_params k]
    cases lastVal ps k <;> rfl
  · have hlist : (UrlBuilder.with_params (UrlBuilder.new "/x" "a=1&b=2")
        [("b", "3")]).all_params = [("a", "1"), ("b", "3")] := by decide
    rw [hlist]

/-! ## Claim C9 — `buildMainUrl()` defaults to `/` with identical filtering -/

/-- C9: a builder on which `with_main_page` was never called (every
builder reachable from `new` through `with_params` has `main_page_path =
none`) serializes `build_main_url` exactly as `build` does over the base
path `/`. -/
theorem c9_main_url_defaults_to_root (path qs : String)
    (pss : List (List (String × String))) (m : List (String × String)) :
    (mkBuilder path qs pss).main_page_path = none
    ∧ UrlBuilder.build_main_url ⟨path, m, none⟩ = UrlBuilder.build ⟨"/", m, none⟩ :=
  ⟨mkBuilder_main path qs pss, rfl⟩

/-! ## Claim C5 — bookmark-redirect middleware -/

theorem collectParams_eq_nil_iff (denylist : List String)
    (cookies : List (String × String)) :
    collectParams denylist cookies = [] ↔
      ∀ c ∈ cookies, ¬(c.1 ∉ denylist ∧ c.2 ≠ "") := by
  constructor
  · intro h c hc hprop
    have hfil : cookies.filter (fun c => !(denylist.contains c.1) && !(c.2 == "")) ≠ [] := by
      intro hnil
      rw [List.filter_eq_nil_iff] at hnil
      exact hnil c hc (by simpa using hprop)
    obtain ⟨p, rest, hcons⟩ := List.exists_cons_of_ne_nil hfil
    rw [collectParams, hcons] at h
    exact foldl_insertA_ne_nil rest (insertA [] p) (insertA_ne_nil [] p)
      (by simpa using h)
  · intro h
    rw [collectParams, List.filter_eq_nil_iff.mpr]
    · rfl
    · intro c hc
      simpa using h c hc

/-- C5: the middleware redirects exactly when the request has no
`HX-Request` header, no query string, and some cookie outside the
denylist with a non-empty value; any redirect target is the request path
followed by `?` and the url-encoding of exactly the collected cookies;
and the two concrete scenarios of the spec. -/
theorem c5_bookmark_redirect (denylist : List String) (req : ReqModel) :
    ((state_urls_middleware denylist req).isSome ↔
      req.hxRequest = false ∧ req.query = none ∧
        ∃ c ∈ req.cookies, c.1 ∉ denylist ∧ c.2 ≠ "")
    ∧ (∀ url, state_urls_middleware denylist req = some url →
        url = req.path ++ "?" ++ encodeParams (collectParams denylist req.cookies))
    ∧ state_urls_middleware [] ⟨"/simple", false, none, [("count", "3")]⟩
        = some "/simple?count=3"
    ∧ state_urls_middleware ["count"] ⟨"/simple", false, none, [("count", "3")]⟩
        = none := by
  refine ⟨?_, ?_, by decide, by decide⟩
  · cases hx : req.hxRequest with
    | true => simp [state_urls_middleware, hx]
    | false =>
      cases hq : req.query with
      | some s => simp [state_urls_middleware, hx, hq]
      | none =>
        by_cases hcp : collectParams denylist req.cookies = []
        · have hno := (collectParams_eq_nil_iff denylist req.cookies).mp hcp
          simp only [state_urls_middleware, hx, hq, hcp]
          simp only [Bool.false_eq_true, if_false, Option.isSome_none,
            Option.isSome_some, List.isEmpty_nil, if_true]
          constructor
          · intro h; simp at h
          · rintro ⟨-, -, c, hc, hprop⟩
            exact absurd hprop (hno c hc)
        · have hsome : ∃ c ∈ req.cookies, c.1 ∉ denylist ∧ c.2 ≠ "" := by
            by_contra hnone
            push_neg at hnone
            exact hcp ((collectParams_eq_nil_iff denylist req.cookies).mpr
              (fun c hc => by
                intro hprop
                exact hprop.2 (hnone c hc hprop.1)))
          obtain ⟨p, rest, hcons⟩ := List.exists_cons_of_ne_nil hcp
          simp only [state_urls_middleware, hx, hq, hcons]
          simp [hx, hq, hsome]
  · intro url h
    rw [state_urls_middleware] at h
    cases hx : req.hxRequest with
    | true => rw [hx] at h; simp at h
    | false =>
      rw [hx] at h
      cases hq : req.query with
      | some s => rw [hq] at h; simp at h
      | none =>
        rw [hq] at h
        simp only [Bool.false_eq_true, if_false, Option.isSome_none] at h
        by_cases hcp : (collectParams denylist req.cookies).isEmpty
        · rw [if_pos hcp] at h
          simp at h
        · rw [if_neg hcp] at h
          exact (Option.some.inj h).symm

/-- C5 witness: the redirect-target equation applied concretely. -/
theorem c5_bookmark_redirect_witness :
    ("/simple?count=3" : String)
      = "/simple" ++ "?" ++ encodeParams (collectParams [] [("count", "3")]) :=
  (c5_bookmark_redirect [] ⟨"/simple", false, none, [("count", "3")]⟩).2.1
    "/simple?count=3" (by decide)

/-! ## Claim C7 — the parse chain: integer, then float, then boolean, then string -/

/-- C7 counterexample: `"NaN"` parses as an `f64` (a NaN), which
`serde_json::Number::from_f64` rejects, so `parse_value` yields no scalar
at all — refuting "every string value yields some scalar". -/
theorem c7_counterexample :
    parse_value "NaN" = none
    ∧ parseI64 "NaN" = none
    ∧ parseRustF64 "NaN" = some .nan := by decide

/-- C7 amended: `parse_value` tries integer, then float, then boolean,
else returns the string; it yields `none` exactly when the value parses
as a non-finite float (an infinity or NaN), and in that case resolution
does not abort — the field keeps its cookie-or-default value. -/
theorem c7_parse_chain (v : String) :
    (∀ n, parseI64 v = some n → parse_value v = some (.jint n))
    ∧ (parseI64 v = none → ∀ q, parseRustF64 v = some (.finite q) →
        parse_value v = some (.jfloat q))
    ∧ (parseI64 v = none → parseRustF64 v = none → ∀ b, parseBool v = some b →
        parse_value v = some (.jbool b))
    ∧ (parseI64 v = none → parseRustF64 v = none → parseBool v = none →
        parse_value v = some (.jstr v))
    ∧ (parse_value v = none ↔
        parseI64 v = none ∧
          (parseRustF64 v = some .infinite ∨ parseRustF64 v = some .nan))
    ∧ (∀ jar q f d, lookupA q f = some v → v ≠ UNSET_SENTINEL →
        parse_value v = none →
          mergedValue jar q f d =
            match lookupA jar f with
            | some cv =>
              match parse_value cv with
              | some p => p
              | none => d
            | none => d) := by
  refine ⟨?_, ?_, ?_, ?_, ?_, ?_⟩
  · intro n h
    simp [parse_value, h]
  · intro h q hf
    simp [parse_value, h, hf]
  · intro h hf b hb
    simp [parse_value, h, hf, hb]
  · intro h hf hb
    simp [parse_value, h, hf, hb]
  · constructor
    · intro h
      cases hi : parseI64 v with
      | some n => simp [parse_value, hi] at h
      | none =>
        refine ⟨rfl, ?_⟩
        cases hf : parseRustF64 v with
        | none =>
          cases hb : parseBool v <;> simp [parse_value, hi, hf, hb] at h
        | some x =>
          cases x with
          | finite q => simp [parse_value, hi, hf] at h
          | infinite => exact Or.inl rfl
          | nan => exact Or.inr rfl
    · rintro ⟨hi, hf | hf⟩ <;> simp [parse_value, hi, hf]
  · intro jar q f d hq hs hp
    simp [mergedValue, hq, hs, hp]

/-- C7 witness: the first link of the chain at a concrete input. -/
theorem c7_parse_chain_witness : parse_value "5" = some (.jint 5) :=
  (c7_parse_chain "5").1 5 (by decide)

/-! ## Claim C1 — per-field precedence: query > cookie > default -/

/-- C1 counterexample: with fields `a` and `b` both `i64` and query
`a=2&b=x`, the unparsable-for-`i64` value of `b` makes whole-object
deserialization fail, so `load` returns the full default — the value of
`a` in the returned state is the default `0`, not the parsed query value
`2`, even though `a` is present in the query, is not the sentinel, and
parses. -/
theorem c1_counterexample :
    lookupA (loadState [⟨"a", .sInt, .jint 0⟩, ⟨"b", .sInt, .jint 1⟩] []
        [("a", "2"), ("b", "x")]) "a" = some (.jint 0)
    ∧ lookupA [("a", "2"), ("b", "x")] "a" = some "2"
    ∧ ("2" : String) ≠ UNSET_SENTINEL
    ∧ parse_value "2" = some (.jint 2)
    ∧ JValue.jint 0 ≠ JValue.jint 2 := by decide

/-- C1 amended: provided the merged map deserializes back into `T`
(otherwise the whole object falls back to the default, C6), the value of
each field in the returned state is its merged value, and the merge is
per-field with strict precedence: a present, non-sentinel, parseable query
value wins; else a present parseable cookie value; else the default. -/
theorem c1_per_field_precedence (sch : Schema) (jar q : List (String × String))
    (e : SField) (he : e ∈ sch)
    (hnd : (sch.map (fun x => x.name)).Nodup)
    (hok : allTypesOk sch jar q = true) :
    lookupA (loadState sch jar q) e.name
      = some (coerceField e.ty (mergedValue jar q e.name e.dflt))
    ∧ (∀ qv p, lookupA q e.name = some qv → qv ≠ UNSET_SENTINEL →
        parse_value qv = some p → mergedValue jar q e.name e.dflt = p)
    ∧ (lookupA q e.name = none → ∀ cv p, lookupA jar e.name = some cv →
        parse_value cv = some p → mergedValue jar q e.name e.dflt = p)
    ∧ (lookupA q e.name = none → lookupA jar e.name = none →
        mergedValue jar q e.name e.dflt = e.dflt) := by
  refine ⟨?_, ?_, ?_, ?_⟩
  · rw [loadState, if_pos hok]
    exact lookupA_map_nodup sch
      (fun x => coerceField x.ty (mergedValue jar q x.name x.dflt)) e he hnd
  · exact fun qv p hq hs hp => mergedValue_query jar q e.name e.dflt qv p hq hs hp
  · exact fun hq cv p hc hp => mergedValue_cookie jar q e.name e.dflt cv p hq hc hp
  · exact fun hq hc => mergedValue_default jar q e.name e.dflt hq hc

/-- C1 witness: a query value overriding a cookie at a concrete input. -/
theorem c1_per_field_precedence_witness :
    mergedValue [("count", "5")] [("count", "7")] "count" (.jint 0) = .jint 7 :=
  (c1_per_field_precedence [⟨"count", .sInt, .jint 0⟩] [("count", "5")]
      [("count", "7")] ⟨"count", .sInt, .jint 0⟩ (by decide) (by decide)
      (by decide)).2.1 "7" (.jint 7) (by decide) (by decide) (by decide)

/-! ## Claim C2 — the unset sentinel forces empty and deletes the cookie -/

/-- C2: when the query binds a field to the unset sentinel, the field's
resolved (merged) value is the empty string regardless of any cookie and
of the default, and after persisting the resolved field map no cookie of
that name remains. -/
theorem c2_sentinel_forces_empty (sch : Schema) (jar q : List (String × String))
    (e : SField) (he : e ∈ sch)
    (hq : lookupA q e.name = some UNSET_SENTINEL) :
    mergedValue jar q e.name e.dflt = .jstr ""
    ∧ lookupA (persistCookies (mergedMap sch jar q) jar) e.name = none := by
  refine ⟨mergedValue_sentinel jar q e.name e.dflt hq, ?_⟩
  rw [lookupA_persistCookies]
  have hin : (e.name, mergedValue jar q e.name e.dflt) ∈ mergedMap sch jar q := by
    rw [mergedMap]
    exact List.mem_map_of_mem _ he
  have hne := lastVal_isSome_of_mem (mergedMap sch jar q) _ hin
  cases hl : lastVal (mergedMap sch jar q) e.name with
  | none => exact absurd hl hne
  | some w =>
    obtain ⟨p, hp, hk, hv⟩ := lastVal_mem _ _ _ hl
    rw [mergedMap] at hp
    obtain ⟨x, hx, hxp⟩ := List.mem_map.mp hp
    have hxname : x.name = e.name := by rw [← hxp] at hk; exact hk
    have hwv : w = mergedValue jar q x.name x.dflt := by
      rw [← hxp] at hv; exact hv.symm
    have hsent : mergedValue jar q x.name x.dflt = .jstr "" :=
      mergedValue_sentinel jar q x.name x.dflt (by rw [hxname]; exact hq)
    rw [hwv, hsent]
    simp [stringifyValue]

/-- C2 witness: sentinel against a live cookie at a concrete input. -/
theorem c2_sentinel_forces_empty_witness :
    mergedValue [("count", "5")] [("count", "__HTMOXIDE_UNSET__")] "count" (.jint 0)
        = .jstr ""
    ∧ lookupA (persistCookies
        (mergedMap [⟨"count", .sInt, .jint 0⟩] [("count", "5")]
          [("count", "__HTMOXIDE_UNSET__")]) [("count", "5")]) "count" = none :=
  c2_sentinel_forces_empty [⟨"count", .sInt, .jint 0⟩] [("count", "5")]
    [("count", "__HTMOXIDE_UNSET__")] ⟨"count", .sInt, .jint 0⟩ (by decide) (by decide)

/-! ## Claim C6 — deserialization failure degrades to the full default -/

/-- C6: a type mismatch in any single field makes `load` return the
whole default instance (not a per-field fallback), and no error reaches
the caller — the result is still a complete field map for the type. -/
theorem c6_wholesale_default (sch : Schema) (jar q : List (String × String))
    (e : SField) (he : e ∈ sch)
    (hbad : typeMatches e.ty (mergedValue jar q e.name e.dflt) = false) :
    loadState sch jar q = defaultState sch
    ∧ (loadState sch jar q).map (fun p => p.1) = sch.map (fun x => x.name) := by
  have hok : ¬(allTypesOk sch jar q = true) := by
    intro h
    rw [allTypesOk, List.all_eq_true] at h
    have := h e he
    rw [hbad] at this
    simp at this
  have hload : loadState sch jar q = defaultState sch := by
    rw [loadState, if_neg hok]
  refine ⟨hload, ?_⟩
  rw [hload, defaultState, List.map_map]
  rfl

/-- C6 witness: an `i64` field fed a plain string falls back wholesale. -/
theorem c6_wholesale_default_witness :
    loadState [⟨"count", .sInt, .jint 0⟩] [] [("count", "abc")]
        = defaultState [⟨"count", .sInt, .jint 0⟩] :=
  (c6_wholesale_default [⟨"count", .sInt, .jint 0⟩] [] [("count", "abc")]
    ⟨"count", .sInt, .jint 0⟩ (by decide) (by decide)).1

/-! ## Claim C3 — round-trip idempotence of persistence -/

/-- C3 counterexample: a string field with non-empty default `"bob"`,
resolved to `""` by the unset sentinel: persistence deletes the cookie,
so the second resolution (empty query, no cookie) falls back to the
default `"bob"` — not the first resolution's `""`. -/
theorem c3_counterexample :
    loadState [⟨"name", .sStr, .jstr "bob"⟩] [] [("name", "__HTMOXIDE_UNSET__")]
        = [("name", .jstr "")]
    ∧ persistCookies
        (mergedMap [⟨"name", .sStr, .jstr "bob"⟩] [] [("name", "__HTMOXIDE_UNSET__")])
        [] = []
    ∧ loadState [⟨"name", .sStr, .jstr "bob"⟩]
        (persistCookies
          (mergedMap [⟨"name", .sStr, .jstr "bob"⟩] [] [("name", "__HTMOXIDE_UNSET__")])
          []) []
        = [("name", .jstr "bob")]
    ∧ JValue.jstr "bob" ≠ JValue.jstr "" := by decide

/-- C3 amended: the round trip (resolve, persist the resolved field map,
resolve again with an empty query) reproduces both the merged raw map and
the resolved state, provided each field's first merged value stringifies
to a non-empty string that re-parses to the very same scalar — which
excludes the failing cases: values resolved to the empty string with a
different default, and string-typed values that read back as numbers or
booleans. -/
theorem c3_roundtrip (sch : Schema) (jar q : List (String × String))
    (hnd : (sch.map (fun x => x.name)).Nodup)
    (h : ∀ e ∈ sch,
      stringifyValue (mergedValue jar q e.name e.dflt) ≠ "" ∧
      parse_value (stringifyValue (mergedValue jar q e.name e.dflt))
        = some (mergedValue jar q e.name e.dflt)) :
    mergedMap sch (persistCookies (mergedMap sch jar q) jar) [] = mergedMap sch jar q
    ∧ loadState sch (persistCookies (mergedMap sch jar q) jar) []
        = loadState sch jar q := by
  have key : ∀ e ∈ sch,
      mergedValue (persistCookies (mergedMap sch jar q) jar) [] e.name e.dflt
        = mergedValue jar q e.name e.dflt := by
    intro e he
    have hcookie : lookupA (persistCookies (mergedMap sch jar q) jar) e.name
        = some (stringifyValue (mergedValue jar q e.name e.dflt)) := by
      rw [lookupA_persistCookies]
      simp only [mergedMap]
      rw [lastVal_map_nodup sch (fun x => mergedValue jar q x.name x.dflt) e he hnd]
      simp [(h e he).1]
    exact mergedValue_cookie _ [] e.name e.dflt _ _ rfl hcookie (h e he).2
  refine ⟨?_, ?_⟩
  · show sch.map (fun e =>
        (e.name, mergedValue (persistCookies (mergedMap sch jar q) jar) [] e.name e.dflt))
      = sch.map (fun e => (e.name, mergedValue jar q e.name e.dflt))
    exact List.map_congr_left (fun e he => by rw [key e he])
  · have hok : allTypesOk sch (persistCookies (mergedMap sch jar q) jar) []
        = allTypesOk sch jar q := by
      rw [allTypesOk, allTypesOk]
      exact all_congr_mem _ _ sch (fun e he => by rw [key e he])
    rw [loadState, loadState, hok]
    by_cases hA : allTypesOk sch jar q = true
    · rw [if_pos hA, if_pos hA]
      exact List.map_congr_left (fun e he => by rw [key e he])
    · rw [if_neg hA, if_neg hA]

/-- C3 witness: an integer field loaded from a cookie survives the round
trip unchanged. -/
theorem c3_roundtrip_witness :
    mergedMap [⟨"count", .sInt, .jint 0⟩]
        (persistCookies (mergedMap [⟨"count", .sInt, .jint 0⟩] [("count", "5")] [])
          [("count", "5")]) []
      = mergedMap [⟨"count", .sInt, .jint 0⟩] [("count", "5")] []
    ∧ loadState [⟨"count", .sInt, .jint 0⟩]
        (persistCookies (mergedMap [⟨"count", .sInt, .jint 0⟩] [("count", "5")] [])
          [("count", "5")]) []
      = loadState [⟨"count", .sInt, .jint 0⟩] [("count", "5")] [] :=
  c3_roundtrip [⟨"count", .sInt, .jint 0⟩] [("count", "5")] [] (by decide) (by decide)

/-! ## Claim C10 — macro hydration merges cookies only onto default values -/

theorem hydStep_lookup_other (jar : List (String × String))
    (sm : List (String × JValue)) (e : SField) (k : String) (h : e.name ≠ k) :
    lookupA (hydStep jar sm e) k = lookupA sm k := by
  cases hc : lookupA sm e.name with
  | none => simp [hydStep, hc]
  | some cur =>
    by_cases hd : cur = e.dflt
    · cases hj : lookupA jar e.name with
      | none => simp [hydStep, hc, hd, hj]
      | some cv =>
        cases hp : hydrParse cv with
        | none => simp [hydStep, hc, hd, hj, hp]
        | some v =>
          simp [hydStep, hc, hd, hj, hp, lookupA_insertA_other sm (e.name, v) k h]
    · simp [hydStep, hc, hd]

theorem hydFold_lookup_other (l : Schema) (jar : List (String × String))
    (sm : List (String × JValue)) (k : String) (hall : ∀ x ∈ l, x.name ≠ k) :
    lookupA (l.foldl (hydStep jar) sm) k = lookupA sm k := by
  induction l generalizing sm with
  | nil => rfl
  | cons x rest ih =>
    rw [List.foldl_cons,
      ih (hydStep jar sm x) (fun y hy => hall y (List.mem_cons_of_mem _ hy))]
    exact hydStep_lookup_other jar sm x k (hall x (List.mem_cons_self _ _))

/-- C10 (implicit): in the macro-generated cookie-hydration step a cookie
value is merged into a field only while that field's query-resolved value
still equals the type default — a non-default value is kept; for a field
whose query-resolved value equals the default, a parseable cookie
overrides it; whereas in `StateLoader::load` a present, non-sentinel,
parseable query value always wins over any cookie. -/
theorem c10_hydration_only_on_default (sch : Schema)
    (sm : List (String × JValue)) (jar q : List (String × String))
    (e : SField) (he : e ∈ sch)
    (hnd : (sch.map (fun x => x.name)).Nodup) :
    (∀ cur, lookupA sm e.name = some cur → cur ≠ e.dflt →
        lookupA (hydrateMap sch sm jar) e.name = some cur)
    ∧ (lookupA sm e.name = some e.dflt →
        ∀ cv p, lookupA jar e.name = some cv → hydrParse cv = some p →
          lookupA (hydrateMap sch sm jar) e.name = some p)
    ∧ (∀ qv p, lookupA q e.name = some qv → qv ≠ UNSET_SENTINEL →
        parse_value qv = some p → mergedValue jar q e.name e.dflt = p) := by
  obtain ⟨l₁, l₂, hsch⟩ := List.append_of_mem he
  subst hsch
  have hnd' : (l₁.map (fun x => x.name)
      ++ (e.name :: l₂.map (fun x => x.name))).Nodup := by
    simpa using hnd
  have h1 : ∀ x ∈ l₁, x.name ≠ e.name := by
    intro x hx hcontra
    exact (List.nodup_append.mp hnd').2.2 (List.mem_map_of_mem _ hx)
      (by rw [hcontra]; exact List.mem_cons_self _ _)
  have h2 : ∀ x ∈ l₂, x.name ≠ e.name := by
    have hcons := (List.nodup_append.mp hnd').2.1
    have hnotin := (List.nodup_cons.mp hcons).1
    intro x hx hcontra
    exact hnotin (by rw [← hcontra]; exact List.mem_map_of_mem _ hx)
  have hl₁ := hydFold_lookup_other l₁ jar sm e.name h1
  refine ⟨?_, ?_,
    fun qv p hq hs hp => mergedValue_query jar q e.name e.dflt qv p hq hs hp⟩
  · intro cur hcur hne
    rw [hydrateMap, List.foldl_append, List.foldl_cons]
    have hstep : hydStep jar (l₁.foldl (hydStep jar) sm) e
        = l₁.foldl (hydStep jar) sm := by
      rw [hydStep, hl₁, hcur]
      simp [hne]
    rw [hydFold_lookup_other l₂ jar _ e.name h2, hstep, hl₁, hcur]
  · intro hdflt cv p hcv hp
    rw [hydrateMap, List.foldl_append, List.foldl_cons]
    have hstep : hydStep jar (l₁.foldl (hydStep jar) sm) e
        = insertA (l₁.foldl (hydStep jar) sm) (e.name, p) := by
      rw [hydStep, hl₁, hdflt]
      simp [hcv, hp]
    rw [hydFold_lookup_other l₂ jar _ e.name h2, hstep]
    exact lookupA_insertA_self _ (e.name, p)

/-- C10 witness: a cookie overriding a default-valued field, while the
loader lets the query win, at a concrete input. -/
theorem c10_hydration_only_on_default_witness :
    lookupA (hydrateMap [⟨"count", .sInt, .jint 0⟩] [("count", .jint 0)]
        [("count", "5")]) "count" = some (.jint 5)
    ∧ mergedValue [("count", "5")] [("count", "0")] "count" (.jint 0) = .jint 0 :=
  ⟨(c10_hydration_only_on_default [⟨"count", .sInt, .jint 0⟩] [("count", .jint 0)]
      [("count", "5")] [("count", "0")] ⟨"count", .sInt, .jint 0⟩ (by decide)
      (by decide)).2.1 (by decide) "5" (.jint 5) (by decide) (by decide),
    (c10_hydration_only_on_default [⟨"count", .sInt, .jint 0⟩] [("count", .jint 0)]
      [("count", "5")] [("count", "0")] ⟨"count", .sInt, .jint 0⟩ (by decide)
      (by decide)).2.2 "0" (.jint 0) (by decide) (by decide) (by decide)⟩
